import Mathlib

/-!
Shallow embedding of the adaptive video-recommender core of
`src/__main__.py` (the richer first script variant, lines 1-251, which the
spec standardizes on): the feedback store (`load_feedback`,
`save_feedback`), the weight model (the per-candidate loop body of
`pick_video`), the selector (`pick_video`) and the session loop body
(`interactive_loop`).

Modelling conventions:
* A persisted CSV row / in-memory feedback dict value is `FeedbackRecord`,
  keeping exactly the fields the core consults (`link`, `keyword`,
  `feedback`); each is `Option String` because `csv.DictReader` fills a
  field missing from a short row with `None` (the header written by
  `save_feedback` always carries all column names, so `row["link"]` etc.
  never raise).  A Python value `None` is `none`, a string `s` is `some s`.
* `feedback_memory` is a Python dict keyed by `row["link"]` with insertion
  order; it is embedded as a `List FeedbackRecord` in insertion order, and
  `histInsert` is the dict assignment `d[r.link] = r` (update in place on
  an existing key, append otherwise).  Iteration over `.values()` is a fold
  over the list.
* Calendar dates are `Int` (days on an abstract timeline): a candidate's
  `upload_date` is `some d` when the field is present and
  `datetime.strptime(..., "%Y%m%d")` succeeds, `none` when the field is
  absent/empty or the parse raises (the bare `except: pass`).  `now` is the
  wall clock at evaluation time, and the source's
  `upload_dt > datetime.now() - timedelta(days=180)` is `now - 180 < d`.
* `random.choices(candidates, weights=weights, k=1)[0]` is abstracted by an
  adversarial index `idx : Nat` reduced modulo the number of positive-weight
  candidates: the draw always returns one of the positive-weight candidates
  (total weight is positive there, so `random.choices` cannot fail), and
  every such candidate has positive probability, so every value of `idx`
  corresponds to a possible draw and every possible draw to some `idx`.
* The file on disk is `Option (List FeedbackRecord)`: `none` when
  `os.path.isfile` is false, `some rows` otherwise.
-/

namespace YtRecommender

/-- One feedback record as the core sees it: a row loaded by
`csv.DictReader` or the in-memory dict value `video | {"feedback": fb}`.
Only the fields the selection core reads are kept; `csv.DictReader` yields
`None` for a field missing from a malformed (short) row, hence
`Option String`. -/
structure FeedbackRecord where
  link : Option String
  keyword : Option String
  feedback : Option String
  deriving Repr, DecidableEq

/-- A candidate video as produced by the fetchers: `keyword`, `title` and
`link` are always present strings; `uploadDate = some d` iff the
`upload_date` field is present and parses as `%Y%m%d` (value `d` on an
abstract day timeline), `none` otherwise. -/
structure Video where
  keyword : String
  title : String
  link : String
  uploadDate : Option Int
  deriving Repr, DecidableEq

/-- Python dict assignment `feedback_memory[r.link] = r` on a dict in
insertion order: if the key is already present the value is updated in
place, otherwise the pair is appended at the end. -/
def histInsert (h : List FeedbackRecord) (r : FeedbackRecord) : List FeedbackRecord :=
  if h.any (fun p => p.link == r.link) then
    h.map (fun p => if p.link == r.link then r else p)
  else
    h ++ [r]

/-- `load_feedback` (src/__main__.py:138-146): returns `{}` when the file
is missing, otherwise builds the dict by `feedback[row["link"]] = row` over
the rows in file order. -/
def load_feedback (file : Option (List FeedbackRecord)) : List FeedbackRecord :=
  match file with
  | none => []
  | some rows => rows.foldl histInsert []

/-- One iteration of the keyword-boost loop of `pick_video`
(src/__main__.py:183-190): records on another keyword are skipped;
`definitely` adds 3, `maybe` adds 1, `never` resets the running weight
to 0, any other feedback value leaves it unchanged. -/
def foldStep (kw : String) (base : Nat) (fb : FeedbackRecord) : Nat :=
  if fb.keyword == some kw then
    if fb.feedback == some "definitely" then base + 3
    else if fb.feedback == some "maybe" then base + 1
    else if fb.feedback == some "never" then 0
    else base
  else base

/-- Step 2 of the weight model: the fold of the keyword-boost loop over the
history values in insertion order, starting from `base = 1`
(src/__main__.py:181-190). -/
def keywordWeight (kw : String) (h : List FeedbackRecord) : Nat :=
  h.foldl (foldStep kw) 1

/-- The recency test of `pick_video` (src/__main__.py:192-198): true iff
the candidate's `upload_date` is present, parses, and
`upload_dt > now - timedelta(days=180)`. -/
def isRecent (now : Int) (v : Video) : Bool :=
  match v.uploadDate with
  | some d => decide (now - 180 < d)
  | none => false

/-- The full per-candidate weight computed by the loop body of `pick_video`
(src/__main__.py:180-199): the keyword fold, then `base += 2` when the
candidate is recent. -/
def weight (now : Int) (v : Video) (h : List FeedbackRecord) : Nat :=
  if isRecent now v then keywordWeight v.keyword h + 2 else keywordWeight v.keyword h

/-- `pick_video` (src/__main__.py:174-206).  `idx` abstracts the draw of
`random.choices` (see the module docstring): the result is the
`idx % n`-th of the `n` positive-weight unrated candidates. -/
def pick_video (now : Int) (idx : Nat) (videos : List Video)
    (feedback_memory : List FeedbackRecord) : Option Video :=
  let candidates := videos.filter (fun v => !(feedback_memory.any (fun r => r.link == some v.link)))
  if candidates.isEmpty then none
  else
    let weights := candidates.map (fun v => weight now v feedback_memory)
    let pairs := (candidates.zip weights).filter (fun p => decide (0 < p.2))
    if pairs.isEmpty then none
    else (pairs.map Prod.fst)[idx % pairs.length]?

/-- Spec-side description of the selector's surviving pool (spec 4.3 steps
1 and 3): the candidates whose link is not a key of the history and whose
computed weight is positive.  Stated from the spec's words, to be compared
with the pool `pick_video` actually draws from. -/
def eligible (now : Int) (videos : List Video) (h : List FeedbackRecord) : List Video :=
  (videos.filter (fun v => !(h.any (fun r => r.link == some v.link)))).filter
    (fun v => decide (0 < weight now v h))

/-- The CSV row that `save_feedback` writes for `video` with rating `fb`
(src/__main__.py:159-170), projected to the fields the core consults: every
field is written as a string, so each loads back as `some _`. -/
def mkRow (video : Video) (fb : String) : FeedbackRecord :=
  { link := some video.link, keyword := some video.keyword, feedback := some fb }

/-- `save_feedback` (src/__main__.py:150-170): opens the file in append
mode (creating it, with the header, when absent) and appends one row; the
result is the full row list of the file afterwards. -/
def save_feedback (file : Option (List FeedbackRecord)) (video : Video)
    (fb : String) : List FeedbackRecord :=
  (file.getD []) ++ [mkRow video fb]

/-- The state the session loop owns: the persisted file (`none` while it
does not exist yet), the in-memory `feedback_memory` dict, and whether the
`while True` loop is still running. -/
structure LoopState where
  file : Option (List FeedbackRecord)
  memory : List FeedbackRecord
  active : Bool
  deriving Repr, DecidableEq

/-- The input-handling tail of one iteration of `interactive_loop`
(src/__main__.py:234-242), given the presented `video` and the user's
input line `feedback` after the source's `.strip().lower()` normalization:
`"quit"` breaks the loop; a valid rating is appended via `save_feedback`
and written into `feedback_memory[video["link"]]` as
`video | {"feedback": feedback}`, and the loop repeats; anything else only
prints a warning and repeats. -/
def loop_step (st : LoopState) (video : Video) (feedback : String) : LoopState :=
  if feedback == "quit" then
    { st with active := false }
  else if feedback == "never" || feedback == "maybe" || feedback == "definitely" then
    { file := some (save_feedback st.file video feedback),
      memory := histInsert st.memory (mkRow video feedback),
      active := st.active }
  else
    st

/-- `pick_video` as a computation over the caller-visible state
`(videos, feedback_memory)`.  The source body only reads its two arguments
(the membership test on line 175, the `.values()` iteration on line 183):
every list it builds is a fresh comprehension bound to a local name, and no
mutating operation (`append`/`del`/item assignment) ever targets the
arguments, so the embedding reads the state and leaves it as is. -/
def pick_videoM (now : Int) (idx : Nat) :
    StateM (List Video × List FeedbackRecord) (Option Video) := do
  let s ← get
  pure (pick_video now idx s.1 s.2)

/-! ### Concrete fixtures (used by the closed evaluation theorems) -/

/-- A candidate on keyword `"x"`, link `"L0"`, uploaded at day 0. -/
def vidX : Video :=
  { keyword := "x", title := "t", link := "L0", uploadDate := some 0 }

/-- A history record rating link `"L0"` (the link of `vidX`). -/
def recL0 : FeedbackRecord :=
  { link := some "L0", keyword := some "x", feedback := some "maybe" }

/-- A `never` rating on keyword `"x"` (link `"L1"`). -/
def neverRecX : FeedbackRecord :=
  { link := some "L1", keyword := some "x", feedback := some "never" }

/-- A `definitely` rating on keyword `"x"` (link `"L2"`). -/
def defRecX : FeedbackRecord :=
  { link := some "L2", keyword := some "x", feedback := some "definitely" }

/-- A history whose only record is a `never` on keyword `"x"`. -/
def histNeverX : List FeedbackRecord := [neverRecX]

/-- A history holding a `never` on keyword `"x"` followed, in fold order,
by a `definitely` on the same keyword (two distinct links, so both live in
the dict simultaneously). -/
def histNeverThenDef : List FeedbackRecord := [neverRecX, defRecX]

/-- A malformed persisted row: `csv.DictReader`'s view of a data row too
short to populate any field (every required field is `None`). -/
def malformedRow : FeedbackRecord :=
  { link := none, keyword := none, feedback := none }

/-- A fresh session state: no feedback file yet, empty memory, loop
running. -/
def st0 : LoopState := { file := none, memory := [], active := true }

/-! ### Helper lemmas -/

/-- One step of the keyword-boost loop is monotone in the running weight. -/
theorem foldStep_mono (kw : String) (fb : FeedbackRecord) {b b' : Nat} (hbb : b ≤ b') :
    foldStep kw b fb ≤ foldStep kw b' fb := by
  unfold foldStep
  split_ifs <;> omega

/-- The keyword-boost fold is monotone in its starting value. -/
theorem foldl_foldStep_mono (kw : String) (l : List FeedbackRecord) :
    ∀ {b b' : Nat}, b ≤ b' → l.foldl (foldStep kw) b ≤ l.foldl (foldStep kw) b' := by
  induction l with
  | nil => intro b b' hbb; simpa using hbb
  | cons fb tl ih =>
    intro b b' hbb
    simp only [List.foldl_cons]
    exact ih (foldStep_mono kw fb hbb)

/-- After a dict assignment the key is present. -/
theorem histInsert_any_self (h : List FeedbackRecord) (r : FeedbackRecord) :
    (histInsert h r).any (fun p => p.link == r.link) = true := by
  unfold histInsert
  split
  · next hany =>
    rw [List.any_eq_true] at hany ⊢
    obtain ⟨p, hp, hpl⟩ := hany
    refine ⟨r, ?_, by simp⟩
    rw [List.mem_map]
    exact ⟨p, hp, by simp [hpl]⟩
  · rw [List.any_eq_true]
    exact ⟨r, by simp, by simp⟩

/-- After a dict assignment the assigned record is among the values. -/
theorem mem_histInsert_self (h : List FeedbackRecord) (r : FeedbackRecord) :
    r ∈ histInsert h r := by
  unfold histInsert
  split
  · next hany =>
    rw [List.any_eq_true] at hany
    obtain ⟨p, hp, hpl⟩ := hany
    rw [List.mem_map]
    exact ⟨p, hp, by simp [hpl]⟩
  · simp

/-- After a dict assignment the value found under the assigned key is the
assigned record. -/
theorem find?_histInsert_self (h : List FeedbackRecord) (r : FeedbackRecord) :
    (histInsert h r).find? (fun p => p.link == r.link) = some r := by
  unfold histInsert
  split
  · next hany =>
    rw [List.find?_map]
    have hpred : ((fun p => p.link == r.link) ∘ fun p : FeedbackRecord =>
        if p.link == r.link then r else p) = fun p : FeedbackRecord => p.link == r.link := by
      funext p
      cases hc : p.link == r.link <;> simp [Function.comp, hc]
    rw [hpred]
    have hsome : (h.find? (fun p => p.link == r.link)).isSome = true := by
      rw [List.find?_isSome]
      rw [List.any_eq_true] at hany
      exact hany
    obtain ⟨p0, hp0⟩ := Option.isSome_iff_exists.mp hsome
    have hp0l := List.find?_some hp0
    rw [hp0]
    simp only [Option.map_some']
    rw [if_pos hp0l]
  · next hany =>
    rw [List.find?_append]
    have h1 : h.find? (fun p => p.link == r.link) = none := by
      rw [List.find?_eq_none]
      intro x hx hxl
      exact hany (List.any_eq_true.mpr ⟨x, hx, hxl⟩)
    rw [h1]
    simp

/-- Loading a file with one more row at the end is the dict assignment of
that row over the load of the shorter file. -/
theorem load_feedback_snoc (rows : List FeedbackRecord) (r : FeedbackRecord) :
    load_feedback (some (rows ++ [r])) = histInsert (load_feedback (some rows)) r := by
  simp [load_feedback, List.foldl_append]

/-- The pool `pick_video` draws from, as a list of (candidate, weight)
pairs, coincides with the spec-side `eligible` pool. -/
theorem pairs_map_fst (now : Int) (videos : List Video) (h : List FeedbackRecord) :
    ((((videos.filter (fun v => !(h.any (fun r => r.link == some v.link)))).zip
        ((videos.filter (fun v => !(h.any (fun r => r.link == some v.link)))).map
          (fun v => weight now v h))).filter
        (fun p => decide (0 < p.2))).map Prod.fst)
      = eligible now videos h := by
  have hzip : ∀ (l : List Video),
      l.zip (l.map (fun v => weight now v h)) = l.map (fun v => (v, weight now v h)) := by
    intro l
    induction l with
    | nil => rfl
    | cons a tl ih => simp [ih]
  rw [hzip, List.filter_map, List.map_map]
  rw [show (Prod.fst ∘ fun v : Video => (v, weight now v h)) = id from rfl, List.map_id]
  rfl

/-- What a successful draw guarantees: the result is one of the input
videos, its link is not a key of the history, and its weight is
positive. -/
theorem pick_video_some_spec (now : Int) (idx : Nat) (videos : List Video)
    (h : List FeedbackRecord) (c : Video)
    (hpick : pick_video now idx videos h = some c) :
    c ∈ videos ∧ h.any (fun r => r.link == some c.link) = false ∧ 0 < weight now c h := by
  unfold pick_video at hpick
  simp only [] at hpick
  split at hpick
  · exact absurd hpick (by simp)
  · split at hpick
    · exact absurd hpick (by simp)
    · rw [List.getElem?_eq_some] at hpick
      obtain ⟨hlt, hget⟩ := hpick
      have hc : c ∈ eligible now videos h := by
        rw [← pairs_map_fst now videos h, ← hget]
        exact List.getElem_mem hlt
      unfold eligible at hc
      rw [List.mem_filter] at hc
      obtain ⟨hc1, hc2⟩ := hc
      rw [List.mem_filter] at hc1
      obtain ⟨hcv, hcq⟩ := hc1
      refine ⟨hcv, ?_, by simpa using hc2⟩
      simpa using hcq

/-- `pick_video` returns `none` exactly when the spec-side eligible pool
is empty; otherwise it returns an element of that pool. -/
theorem pick_video_none_iff (now : Int) (idx : Nat) (videos : List Video)
    (h : List FeedbackRecord) :
    pick_video now idx videos h = none ↔ eligible now videos h = [] := by
  unfold pick_video
  simp only []
  set cand := videos.filter (fun v => !(h.any (fun r => r.link == some v.link))) with hcand
  set prs := (cand.zip (cand.map (fun v => weight now v h))).filter
    (fun p => decide (0 < p.2)) with hprs
  have hmf : prs.map Prod.fst = eligible now videos h := pairs_map_fst now videos h
  split
  · next hemp =>
    rw [List.isEmpty_eq_true] at hemp
    have helig : eligible now videos h = [] := by
      rw [← hmf, hprs, hemp]
      rfl
    simp [helig]
  · split
    · next hemp2 =>
      rw [List.isEmpty_eq_true] at hemp2
      have helig : eligible now videos h = [] := by
        rw [← hmf, hemp2]
        rfl
      simp [helig]
    · next hemp2 =>
      have hne : prs ≠ [] := by
        intro hh
        rw [hh] at hemp2
        exact hemp2 rfl
      constructor
      · intro hnone
        have hlen : 0 < prs.length := List.length_pos.mpr hne
        have hmod : idx % prs.length < (prs.map Prod.fst).length := by
          rw [List.length_map]
          exact Nat.mod_lt idx hlen
        rw [List.getElem?_eq_getElem hmod] at hnone
        exact absurd hnone (by simp)
      · intro helig
        rw [helig] at hmf
        exact absurd (List.map_eq_nil_iff.mp hmf) hne

/-! ### Claims -/

/-- C1: the weight computed for a candidate equals the step-2 keyword fold
result plus a recency bonus of exactly 2 added unconditionally after the
fold completes (`final = fold_result + (2 if recent else 0)`); in
particular a candidate with fold result 0 whose upload date is within the
last 180 days receives weight exactly 2, not 0. -/
theorem c1_recency_bonus_unconditional (now : Int) (v : Video) (h : List FeedbackRecord) :
    weight now v h = keywordWeight v.keyword h + (if isRecent now v then 2 else 0) ∧
    (keywordWeight v.keyword h = 0 → isRecent now v = true → weight now v h = 2) := by
  constructor
  · unfold weight
    split_ifs <;> simp
  · intro h0 hr
    unfold weight
    rw [if_pos hr, h0]

/-- C1 witness: the literal input of spec §8: history = one `never` on
keyword `"x"`, candidate on keyword `"x"` uploaded today → weight 2. -/
theorem c1_recency_bonus_unconditional_witness :
    keywordWeight "x" histNeverX = 0 ∧ isRecent 0 vidX = true ∧
      weight 0 vidX histNeverX = 2 :=
  ⟨by decide, by decide,
    (c1_recency_bonus_unconditional 0 vidX histNeverX).2 (by decide) (by decide)⟩

/-- C2 counterexample: a history containing a `never` record on the
candidate's keyword whose step-2 fold result is 3, not ≤ 0: the record
folded after the `never` (a `definitely` on the same keyword) raises the
running weight from 0 to 3, refuting "records folded after that never
cannot raise the step-2 fold result above 0". -/
theorem c2_counterexample :
    (histNeverThenDef.any (fun r => r.keyword == some "x" && r.feedback == some "never")) = true ∧
    keywordWeight "x" histNeverThenDef = 3 := by
  decide

/-- C2 amended: a `never` record on the candidate's keyword zeroes the
running weight at the point it is folded — from any running value, folding
a prefix that ends with that `never` yields exactly 0 (records folded
later in the same fold order may raise it again, contrary to the original
claim). -/
theorem c2_never_zeroes_at_fold_point (kw : String) (b : Nat)
    (l1 : List FeedbackRecord) (r : FeedbackRecord)
    (hk : r.keyword = some kw) (hf : r.feedback = some "never") :
    (l1 ++ [r]).foldl (foldStep kw) b = 0 := by
  rw [List.foldl_append]
  have h1 : ((some "never" : Option String) == some "definitely") = false := by decide
  have h2 : ((some "never" : Option String) == some "maybe") = false := by decide
  simp [foldStep, hk, hf, h1, h2]

/-- C2 amended witness: a `definitely` boost folded before the `never` is
wiped out: folding `[definitely on x, never on x]` from base 1 gives 0. -/
theorem c2_never_zeroes_at_fold_point_witness :
    ([defRecX] ++ [neverRecX]).foldl (foldStep "x") 1 = 0 :=
  c2_never_zeroes_at_fold_point "x" 1 [defRecX] neverRecX (by decide) (by decide)

/-- C3: inserting one additional `definitely` record on the candidate's
keyword, at any position in the fold order, never decreases the computed
weight. -/
theorem c3_definitely_monotone (now : Int) (v : Video) (l1 l2 : List FeedbackRecord)
    (r : FeedbackRecord) (hk : r.keyword = some v.keyword)
    (hf : r.feedback = some "definitely") :
    weight now v (l1 ++ l2) ≤ weight now v (l1 ++ r :: l2) := by
  have hkey : keywordWeight v.keyword (l1 ++ l2) ≤ keywordWeight v.keyword (l1 ++ r :: l2) := by
    unfold keywordWeight
    rw [List.foldl_append, List.foldl_append, List.foldl_cons]
    apply foldl_foldStep_mono
    have hstep : foldStep v.keyword (l1.foldl (foldStep v.keyword) 1) r
        = l1.foldl (foldStep v.keyword) 1 + 3 := by
      unfold foldStep
      rw [hk, hf]
      simp
    rw [hstep]
    omega
  unfold weight
  split_ifs <;> omega

/-- C3 witness: adding a `definitely` on `"x"` to the empty history does
not decrease the weight of `vidX`. -/
theorem c3_definitely_monotone_witness :
    weight 0 vidX ([] ++ []) ≤ weight 0 vidX ([] ++ defRecX :: []) :=
  c3_definitely_monotone 0 vidX [] [] defRecX (by decide) (by decide)

/-- C4 counterexample: a persisted record missing every required field is
NOT skipped by `load_feedback`: it enters the returned history (inserted
under its absent link key), so the load result is not empty.  The source's
loader (src/__main__.py:138-146) has no skipping logic: `csv.DictReader`
fills missing fields of a short row with `None` and
`feedback[row["link"]] = row` stores the row regardless. -/
theorem c4_counterexample :
    malformedRow ∈ load_feedback (some [malformedRow]) ∧
    load_feedback (some [malformedRow]) ≠ [] := by
  decide

/-- C4 amended: `load_feedback` never fails when the backing storage is
missing (it returns the empty history); a malformed persisted record — one
missing required fields — does not abort the load, but it is not skipped
either: it still enters the returned history. -/
theorem c4_missing_storage_malformed_loaded (rows : List FeedbackRecord)
    (r : FeedbackRecord) (hmal : r.link = none) :
    load_feedback none = [] ∧ r ∈ load_feedback (some (rows ++ [r])) := by
  refine ⟨rfl, ?_⟩
  rw [load_feedback_snoc]
  exact mem_histInsert_self _ _

/-- C4 amended witness: the malformed row at the end of a one-row file is
loaded, and the missing file loads as the empty history. -/
theorem c4_missing_storage_malformed_loaded_witness :
    load_feedback none = [] ∧ malformedRow ∈ load_feedback (some ([recL0] ++ [malformedRow])) :=
  c4_missing_storage_malformed_loaded [recL0] malformedRow (by decide)

/-- C5: exclusion of rated links: if a candidate's link is a key of the
history, `pick_video` never returns that candidate. -/
theorem c5_exclusion (now : Int) (idx : Nat) (videos : List Video)
    (h : List FeedbackRecord) (c : Video)
    (hrated : h.any (fun r => r.link == some c.link) = true) :
    pick_video now idx videos h ≠ some c := by
  intro hpick
  have hnot := (pick_video_some_spec now idx videos h c hpick).2.1
  rw [hnot] at hrated
  exact absurd hrated (by decide)

/-- C5 witness: `vidX`'s link `"L0"` is rated in `[recL0]`, so the draw
over `[vidX]` cannot return `vidX`. -/
theorem c5_exclusion_witness :
    pick_video 0 0 [vidX] [recL0] ≠ some vidX :=
  c5_exclusion 0 0 [vidX] [recL0] vidX (by decide)

/-- C6: `pick_video` returns `none` exactly when no candidate survives the
two removals (link already rated, computed weight exactly 0); in
particular it returns `none` when every candidate's link is rated, and a
returned candidate never has weight 0. -/
theorem c6_none_iff_exhausted (now : Int) (idx : Nat) (videos : List Video)
    (h : List FeedbackRecord) :
    (pick_video now idx videos h = none ↔ eligible now videos h = []) ∧
    ((∀ v ∈ videos, h.any (fun r => r.link == some v.link) = true) →
      pick_video now idx videos h = none) ∧
    (∀ c, pick_video now idx videos h = some c → weight now c h ≠ 0) := by
  refine ⟨pick_video_none_iff now idx videos h, ?_, ?_⟩
  · intro hall
    rw [pick_video_none_iff]
    unfold eligible
    have hflt : videos.filter (fun v => !(h.any (fun r => r.link == some v.link))) = [] := by
      rw [List.filter_eq_nil_iff]
      intro a ha
      simp [hall a ha]
    rw [hflt]
    rfl
  · intro c hpick
    have hw := (pick_video_some_spec now idx videos h c hpick).2.2
    omega

/-- C6 witness: with the single candidate's link rated, the selector
signals exhaustion. -/
theorem c6_none_iff_exhausted_witness :
    pick_video 0 0 [vidX] [recL0] = none :=
  (c6_none_iff_exhausted 0 0 [vidX] [recL0]).2.1 (by decide)

/-- C7: on a valid rating the session loop appends the record through the
feedback store, updates the in-memory history with the presented
candidate's link before the next draw — so the very next `pick_video` over
that memory can never return a candidate with that link — and the loop
remains active. -/
theorem c7_valid_rating_updates (st : LoopState) (video : Video) (fb : String)
    (hvalid : fb = "never" ∨ fb = "maybe" ∨ fb = "definitely")
    (hact : st.active = true) :
    (loop_step st video fb).active = true ∧
    (loop_step st video fb).file = some ((st.file.getD []) ++ [mkRow video fb]) ∧
    (loop_step st video fb).memory = histInsert st.memory (mkRow video fb) ∧
    (∀ now idx videos c,
      pick_video now idx videos (loop_step st video fb).memory = some c →
        c.link ≠ video.link) := by
  have hq : (fb == "quit") = false := by
    rcases hvalid with h | h | h <;> rw [h] <;> decide
  have hv : (fb == "never" || fb == "maybe" || fb == "definitely") = true := by
    rcases hvalid with h | h | h <;> rw [h] <;> decide
  have hstep : loop_step st video fb =
      { file := some (save_feedback st.file video fb),
        memory := histInsert st.memory (mkRow video fb),
        active := st.active } := by
    unfold loop_step
    simp [hq, hv]
  rw [hstep]
  refine ⟨hact, rfl, rfl, ?_⟩
  intro now idx videos c hpick hlink
  have hspec := (pick_video_some_spec now idx videos _ c hpick).2.1
  have hany := histInsert_any_self st.memory (mkRow video fb)
  have hmk : (mkRow video fb).link = some video.link := rfl
  rw [hmk, ← hlink] at hany
  rw [hspec] at hany
  exact absurd hany (by decide)

/-- C7 witness: rating `vidX` as `definitely` from a fresh session keeps
the loop active, appends the row, stores it in memory, and the next draw
over any candidate list can no longer return a candidate with link
`"L0"`. -/
theorem c7_valid_rating_updates_witness :
    (loop_step st0 vidX "definitely").active = true ∧
    (loop_step st0 vidX "definitely").file = some (([] : List FeedbackRecord) ++ [mkRow vidX "definitely"]) ∧
    (loop_step st0 vidX "definitely").memory = histInsert ([] : List FeedbackRecord) (mkRow vidX "definitely") ∧
    (∀ now idx videos c,
      pick_video now idx videos (loop_step st0 vidX "definitely").memory = some c →
        c.link ≠ vidX.link) :=
  c7_valid_rating_updates st0 vidX "definitely" (by decide) (by decide)

/-- C8: append/load round trip: after `save_feedback` appends the row for
a rating, a fresh `load_feedback` of the resulting storage contains a
record equal to that row, and the in-memory view maps the row's link to
that (latest) record even when the link had earlier records. -/
theorem c8_append_load_roundtrip (file : Option (List FeedbackRecord))
    (video : Video) (fb : String) :
    mkRow video fb ∈ load_feedback (some (save_feedback file video fb)) ∧
    (load_feedback (some (save_feedback file video fb))).find?
      (fun p => p.link == (mkRow video fb).link) = some (mkRow video fb) := by
  unfold save_feedback
  rw [load_feedback_snoc]
  exact ⟨mem_histInsert_self _ _, find?_histInsert_self _ _⟩

/-- C9: on invalid input (neither a valid rating nor quit) the session
state is entirely unchanged: nothing is appended to the store, the
in-memory history is untouched, and the loop stays where it was. -/
theorem c9_invalid_input_no_mutation (st : LoopState) (video : Video) (fb : String)
    (hq : fb ≠ "quit") (hn : fb ≠ "never") (hm : fb ≠ "maybe")
    (hd : fb ≠ "definitely") :
    loop_step st video fb = st := by
  have h1 : (fb == "quit") = false := by
    simp [hq]
  have h2 : (fb == "never" || fb == "maybe" || fb == "definitely") = false := by
    simp [hn, hm, hd]
  unfold loop_step
  simp [h1, h2]

/-- C9 witness: the input `"xyz"` leaves a fresh session state exactly as
it was. -/
theorem c9_invalid_input_no_mutation_witness :
    loop_step st0 vidX "xyz" = st0 :=
  c9_invalid_input_no_mutation st0 vidX "xyz" (by decide) (by decide) (by decide) (by decide)

/-- C10: the selector mutates neither of its inputs: run over the
caller-visible state (candidate list, history), it leaves that state
exactly as it was — same candidates in the same order, same history — its
value is the pure `pick_video`, and a returned candidate is drawn from the
caller's list (filtering builds new lists; the caller's never shrinks). -/
theorem c10_select_frame (now : Int) (idx : Nat)
    (s : List Video × List FeedbackRecord) :
    ((pick_videoM now idx).run s).2 = s ∧
    ((pick_videoM now idx).run s).1 = pick_video now idx s.1 s.2 ∧
    (∀ c, pick_video now idx s.1 s.2 = some c → c ∈ s.1) := by
  refine ⟨rfl, rfl, ?_⟩
  intro c hpick
  exact (pick_video_some_spec now idx s.1 s.2 c hpick).1

/-- C10 witness: on the concrete state `([vidX], [])` the run leaves the
state unchanged and the drawn `vidX` is a member of the input list. -/
theorem c10_select_frame_witness :
    ((pick_videoM 0 0).run ([vidX], [])).2 = ([vidX], []) ∧ vidX ∈ [vidX] :=
  ⟨(c10_select_frame 0 0 ([vidX], [])).1,
    (c10_select_frame 0 0 ([vidX], [])).2.2 vidX (by decide)⟩

end YtRecommender
